import Mathlib

/-!
# Verification of the second-brain graph-view engine

Shallow embedding of `src/web/src/components/second-brain/graph-view.tsx`
(and the data shapes of `graph-data.ts`).

Modelling conventions:

* JavaScript numbers are embedded as `ℚ`.  `Math.sqrt`, `Math.cos` and
  `Math.sin` are not rational-valued, so every definition that uses them
  takes the corresponding function as an explicit parameter (`sq`, `cosF`,
  `sinF`); theorems either hold for every such function or instantiate it
  on inputs where the value is exact.
* The optional pinned coordinates `fx?: number | null` can be *undefined*
  (field absent), *null*, or a number.  These three cases are embedded as
  the inductive type `JsNum`.  The distinction is load-bearing: the
  simulation skip test is the strict comparison `node.fx !== null`, which
  is **true** for `undefined`.
* A `SimulatedLink` holds references to the node objects; the node array
  and the links alias the same objects, and the per-frame "update links"
  effect re-resolves them by `id` against the current node array.  Links
  are therefore embedded by the endpoint `id` (an `Option String`: `none`
  models the `undefined` produced when the `initialNodes.find(...) ||
  initialNodes[k]` fallback also fails), and reads through a link resolve
  the id against the current node list.  A JavaScript property access on
  an `undefined` endpoint throws a `TypeError`; fallible computations
  return `Option`, with `none` as the thrown exception.
-/

namespace GraphView

/-- A JavaScript `number | null | undefined` value, used for the optional
pinned coordinates `fx`, `fy` of a simulated node. -/
inductive JsNum where
  | undef : JsNum
  | jsnull : JsNum
  | val : ℚ → JsNum
deriving DecidableEq

/-- The strict JavaScript comparison `v !== null`. -/
def JsNum.isNotNull : JsNum → Bool
  | .jsnull => false
  | _ => true

/-- The four node types of `graph-data.ts`. -/
inductive NodeType where
  | entry : NodeType
  | tag : NodeType
  | topic : NodeType
  | date : NodeType
deriving DecidableEq

/-- `GraphNode` of `graph-data.ts` (fields not read by the engine -
`label`, `color`, `metadata` - are omitted; no claim mentions them). -/
structure GNode where
  id : String
  ntype : NodeType
  size : Option ℚ
deriving DecidableEq

/-- `GraphLink` of `graph-data.ts`, in the `string` endpoint form used by
the data source. -/
structure GLink where
  source : String
  target : String
  strength : Option ℚ
deriving DecidableEq

/-- `SimulatedNode` of `graph-view.tsx`: a node extended with position,
velocity and the optional pinned position. -/
structure SimNode where
  id : String
  ntype : NodeType
  size : Option ℚ
  x : ℚ
  y : ℚ
  vx : ℚ
  vy : ℚ
  fx : JsNum
  fy : JsNum
deriving DecidableEq

/-- `SimulatedLink`, embedded by endpoint id as explained in the header.
`none` is an `undefined` endpoint reference. -/
structure SLink where
  source : Option String
  target : Option String
  strength : Option ℚ
deriving DecidableEq

/-- Viewport dimensions. -/
structure Dims where
  width : ℚ
  height : ℚ
deriving DecidableEq

/-- `node.size || 20` (JavaScript `||` treats `0` as falsy). -/
def sizeOrDefault (n : SimNode) : ℚ :=
  match n.size with
  | some s => if s = 0 then 20 else s
  | none => 20

/-- `link.strength || 0.5`. -/
def strengthOrDefault (l : SLink) : ℚ :=
  match l.strength with
  | some s => if s = 0 then 1/2 else s
  | none => 1/2

/-- The skip test of both simulation loops:
`node.fx !== null && node.fy !== null` (lines 188 and 258). -/
def isFixed (n : SimNode) : Bool :=
  n.fx.isNotNull && n.fy.isNotNull

/-- `nodes.find(n => n.id === nid)`. -/
def findNode (ns : List SimNode) (nid : String) : Option SimNode :=
  ns.find? (fun n => n.id == nid)

/-- The pairwise repulsion contribution of `other` on `node`
(lines 191-202 / 261-272): `distance = sqrt(dx²+dy²) || 1`,
`force = 5000·sizeA·sizeB/distance²`, scaled by `0.02`. -/
def repelForce (sq : ℚ → ℚ) (node other : SimNode) : ℚ × ℚ :=
  let dx := node.x - other.x
  let dy := node.y - other.y
  let d0 := sq (dx * dx + dy * dy)
  let distance := if d0 = 0 then 1 else d0
  let force := 5000 * sizeOrDefault node * sizeOrDefault other / (distance * distance)
  (dx / distance * force * (2/100), dy / distance * force * (2/100))

/-- The repulsion loop `for j in 0..<n, j ≠ i` accumulating into the
velocity (the loop reads the *current* node list `ns`, which inside one
tick already contains the updated lower-index nodes). -/
def accumRepel (sq : ℚ → ℚ) (ns : List SimNode) (node : SimNode) (i : ℕ) :
    List ℕ → ℚ × ℚ → ℚ × ℚ
  | [], acc => acc
  | j :: js, acc =>
    if j = i then accumRepel sq ns node i js acc
    else
      match ns[j]? with
      | none => accumRepel sq ns node i js acc
      | some other =>
        let f := repelForce sq node other
        accumRepel sq ns node i js (acc.1 + f.1, acc.2 + f.2)

/-- The spring force of one link endpoint `other` on `node`
(lines 213-220 / 283-290): `targetDistance = 150 + sizeA + sizeB`,
`strength = (link.strength || 0.5) * 0.0015`. -/
def springForce (sq : ℚ → ℚ) (node other : SimNode) (strength0 : ℚ) : ℚ × ℚ :=
  let ldx := other.x - node.x
  let ldy := other.y - node.y
  let d0 := sq (ldx * ldx + ldy * ldy)
  let distance := if d0 = 0 then 1 else d0
  let targetDistance := 150 + sizeOrDefault node + sizeOrDefault other
  let strength := strength0 * (15/10000)
  (ldx / distance * (distance - targetDistance) * strength,
   ldy / distance * (distance - targetDistance) * strength)

/-- The body of `links.forEach` for one link while processing `node`
(lines 211-222 / 281-292).  Accesses `link.source.id` always, and
`link.target.id` (or `other.x`) afterwards, so an `undefined` endpoint
throws (`none`).  `other` is read through the object reference, i.e.
resolved against the current node list `ns`; a reference to a node object
detached from the current list is also mapped to `none`. -/
def linkForce (sq : ℚ → ℚ) (ns : List SimNode) (node : SimNode) (l : SLink) :
    Option (ℚ × ℚ) := do
  let sid ← l.source
  if sid = node.id then do
    let tid ← l.target
    let other ← findNode ns tid
    pure (springForce sq node other (strengthOrDefault l))
  else do
    let tid ← l.target
    if tid = node.id then do
      let other ← findNode ns sid
      pure (springForce sq node other (strengthOrDefault l))
    else
      pure (0, 0)

/-- Accumulation of all link forces on `node`. -/
def accumLinks (sq : ℚ → ℚ) (ns : List SimNode) (node : SimNode) :
    List SLink → ℚ × ℚ → Option (ℚ × ℚ)
  | [], acc => some acc
  | l :: ls, acc =>
    match linkForce sq ns node l with
    | none => none
    | some f => accumLinks sq ns node ls (acc.1 + f.1, acc.2 + f.2)

/-- The full per-node force/integration body (lines 190-233 / 260-303),
reading neighbour positions from the current list `ns`: repulsion, then
centering attraction `(center − pos) · 0.0001`, then link springs, then
damping `0.85`, integration, and the boundary clamp with
`padding = 50 + (node.size || 20)`. -/
def updatedNode (sq : ℚ → ℚ) (dims : Dims) (links : List SLink)
    (ns : List SimNode) (i : ℕ) (node : SimNode) : Option SimNode := do
  let rep := accumRepel sq ns node i (List.range ns.length) (0, 0)
  let vx1 := node.vx + rep.1
  let vy1 := node.vy + rep.2
  let vx2 := vx1 + (dims.width / 2 - node.x) * (1/10000)
  let vy2 := vy1 + (dims.height / 2 - node.y) * (1/10000)
  let lf ← accumLinks sq ns node links (0, 0)
  let vx3 := (vx2 + lf.1) * (85/100)
  let vy3 := (vy2 + lf.2) * (85/100)
  let x1 := node.x + vx3
  let y1 := node.y + vy3
  let padding := 50 + sizeOrDefault node
  pure { node with
    x := max padding (min (dims.width - padding) x1)
    y := max padding (min (dims.height - padding) y1)
    vx := vx3
    vy := vy3 }

/-- One iteration of the outer `for i` loop: skip the node when
`node.fx !== null && node.fy !== null`, otherwise update it in place. -/
def tickStep (sq : ℚ → ℚ) (dims : Dims) (links : List SLink)
    (ns : List SimNode) (i : ℕ) : Option (List SimNode) :=
  match ns[i]? with
  | none => some ns
  | some node =>
    if isFixed node then some ns
    else
      match updatedNode sq dims links ns i node with
      | none => none
      | some node1 => some (ns.set i node1)

/-- Sequential execution of `tickStep` over a list of indices. -/
def runSteps (sq : ℚ → ℚ) (dims : Dims) (links : List SLink) :
    List SimNode → List ℕ → Option (List SimNode)
  | ns, [] => some ns
  | ns, i :: is =>
    match tickStep sq dims links ns i with
    | none => none
    | some ns1 => runSteps sq dims links ns1 is

/-- One synchronous simulation tick: the body of `simulate`
(lines 249-307), a sequential in-place pass over the node indices. -/
def simulateTick (sq : ℚ → ℚ) (dims : Dims) (links : List SLink)
    (ns : List SimNode) : Option (List SimNode) :=
  runSteps sq dims links ns (List.range ns.length)

/-- `n` synchronous ticks in a row. -/
def iterTick (sq : ℚ → ℚ) (dims : Dims) (links : List SLink) :
    ℕ → List SimNode → Option (List SimNode)
  | 0, ns => some ns
  | n + 1, ns =>
    match simulateTick sq dims links ns with
    | none => none
    | some ns1 => iterTick sq dims links n ns1

/-- `preWarmSimulation` (lines 181-236): the per-iteration body is
textually identical to the body of `simulate`, so it is embedded as the
same tick run `iterations` times (default `100`). -/
def preWarmSimulation (sq : ℚ → ℚ) (dims : Dims) (ns : List SimNode)
    (links : List SLink) (iterations : ℕ) : Option (List SimNode) :=
  iterTick sq dims links iterations ns

/-- `initialNodes` (lines 161-167): every node starts with `vx = vy = 0`
and with `fx`, `fy` *absent*, i.e. `undefined`.  The random coordinates
are supplied by the position streams `px`, `py`. -/
def initialNodes (gs : List GNode) (px py : ℕ → ℚ) : List SimNode :=
  gs.enum.map (fun p =>
    { id := p.2.id, ntype := p.2.ntype, size := p.2.size,
      x := px p.1, y := py p.1, vx := 0, vy := 0,
      fx := .undef, fy := .undef })

/-- `initialLinks` (lines 170-178): endpoint resolution with the
`|| initialNodes[0]` (source) and `|| initialNodes[1]` (target)
fallbacks; a failed fallback leaves the endpoint `undefined` (`none`). -/
def initialLinks (ns : List SimNode) (gls : List GLink) : List SLink :=
  gls.map (fun gl =>
    { source :=
        match findNode ns gl.source with
        | some n => some n.id
        | none => ns[0]?.map (fun n => n.id)
      target :=
        match findNode ns gl.target with
        | some n => some n.id
        | none => ns[1]?.map (fun n => n.id)
      strength := gl.strength })

/-! ## Interaction and viewport controller -/

/-- The camera transform `{x, y, k}`. -/
structure Transform where
  x : ℚ
  y : ℚ
  k : ℚ
deriving DecidableEq

/-- `handleZoom` (lines 333-338):
`newK = Math.max(0.3, Math.min(3, prev.k + delta))`, other fields kept. -/
def handleZoom (delta : ℚ) (t : Transform) : Transform :=
  { t with k := max (3/10) (min 3 (t.k + delta)) }

/-- `handleReset` (lines 340-342). -/
def handleReset : Transform :=
  { x := 0, y := 0, k := 1 }

/-- The interaction state owned by the component: the selection and the
per-gesture pan anchors. -/
structure UIState where
  selectedNode : Option SimNode
  isPanning : Bool
  panStart : ℚ × ℚ
  transformStart : ℚ × ℚ
deriving DecidableEq

/-- `handleMouseDown` (lines 345-351) in the case where the gesture
starts on empty canvas (the event target is the svg): records the pan
anchors; the selection is not touched. -/
def handleMouseDownCanvas (st : UIState) (t : Transform)
    (clientX clientY : ℚ) : UIState :=
  { st with isPanning := true, panStart := (clientX, clientY),
            transformStart := (t.x, t.y) }

/-- `handleNodeClick` (lines 398-401): replaces the selection and raises
exactly one `onNodeClick` notification carrying the node record (returned
as the second component). -/
def handleNodeClick (st : UIState) (n : SimNode) : UIState × List SimNode :=
  ({ st with selectedNode := some n }, [n])

/-- The close button of the node details panel (line 664):
`setSelectedNode(null)`. -/
def closeSelection (st : UIState) : UIState :=
  { st with selectedNode := none }

/-- The drag branch of `handleMouseMove` (lines 364-377): the dragged
node gets position *and* pinned position set to the pointer's world
coordinates. -/
def handleMouseMoveDrag (dragId : String) (wx wy : ℚ)
    (ns : List SimNode) : List SimNode :=
  ns.map (fun n =>
    if n.id == dragId then { n with x := wx, y := wy, fx := .val wx, fy := .val wy }
    else n)

/-! ## Filters and visibility -/

/-- `visibleNodes` (lines 440-442).  The `activeFilters` set is embedded
as a list queried only through emptiness and membership. -/
def visibleNodes (af : List NodeType) (ns : List SimNode) : List SimNode :=
  if af.isEmpty then ns else ns.filter (fun n => af.contains n.ntype)

/-- The visibility predicate of one link (lines 447-449):
`activeFilters.has(l.source.type) && activeFilters.has(l.target.type)`,
with JavaScript `&&` short-circuiting (the target endpoint is only read
when the source endpoint passes the filter).  Endpoint objects are
resolved against the current node list; an `undefined` endpoint throws. -/
def linkVisible (af : List NodeType) (ns : List SimNode) (l : SLink) :
    Option Bool := do
  let sid ← l.source
  let s ← findNode ns sid
  if af.contains s.ntype then do
    let tid ← l.target
    let t ← findNode ns tid
    pure (af.contains t.ntype)
  else
    pure false

/-- The filter loop of `visibleLinks`. -/
def filterLinks (af : List NodeType) (ns : List SimNode) :
    List SLink → Option (List SLink)
  | [] => some []
  | l :: ls =>
    match linkVisible af ns l with
    | none => none
    | some b =>
      match filterLinks af ns ls with
      | none => none
      | some rest => some (if b then l :: rest else rest)

/-- `visibleLinks` (lines 444-450). -/
def visibleLinks (af : List NodeType) (ns : List SimNode)
    (ls : List SLink) : Option (List SLink) :=
  if af.isEmpty then some ls else filterLinks af ns ls

/-! ## Layout reorganizer (`applyMagicWanderLayout`, lines 50-130) -/

/-- `Math.ceil(Math.sqrt(n))` on a natural count: the least `g` with
`n ≤ g²`. -/
def jsCeilSqrt (n : ℕ) : ℕ :=
  ((List.range (n + 1)).find? (fun g => decide (n ≤ g * g))).getD n

/-- One link's test of the connectivity filter (lines 65-67):
`link.source.id === node.id || link.target.id === node.id`, with `||`
short-circuiting; `undefined` endpoints throw on access. -/
def linkTouches (nid : String) (l : SLink) : Option Bool := do
  let sid ← l.source
  if sid = nid then pure true
  else do
    let tid ← l.target
    pure (tid = nid)

/-- `connectedLinks.length`: the number of links incident to `nid`. -/
def connectivity (ls : List SLink) (nid : String) : Option ℕ :=
  match ls with
  | [] => some 0
  | l :: rest => do
    let b ← linkTouches nid l
    let c ← connectivity rest nid
    pure (if b then c + 1 else c)

/-- `nodes.map(node => ({...node, connectivity}))` (lines 64-70). -/
def withConnectivity (ls : List SLink) :
    List SimNode → Option (List (SimNode × ℕ))
  | [] => some []
  | n :: ns => do
    let c ← connectivity ls n.id
    let rest ← withConnectivity ls ns
    pure ((n, c) :: rest)

/-- Stable insertion of one element into a connectivity-descending list:
the element goes after every earlier element of equal or larger key. -/
def insertConnDesc (x : SimNode × ℕ) :
    List (SimNode × ℕ) → List (SimNode × ℕ)
  | [] => [x]
  | y :: ys => if y.2 < x.2 then x :: y :: ys else y :: insertConnDesc x ys

/-- `[...nodes].sort((a, b) => b.connectivity - a.connectivity)` (line
73): a stable descending sort by connectivity (the ECMAScript sort is
stable), embedded as a stable insertion sort. -/
def sortConnDesc (l : List (SimNode × ℕ)) : List (SimNode × ℕ) :=
  l.foldl (fun acc x => insertConnDesc x acc) []

/-- The grid-plus-spiral placement of the `i`-th ranked node
(lines 78-98). -/
def placeNode (sq cosF sinF : ℚ → ℚ) (gridSize : ℕ) (cellSize offX offY : ℚ)
    (i : ℕ) (n : SimNode) : SimNode :=
  let col : ℚ := (i % gridSize : ℕ)
  let row : ℚ := (i / gridSize : ℕ)
  let spiralRadius := sq (i : ℚ) * (1/2)
  let spiralAngle := (i : ℚ) * (1/10)
  let spiralX := cosF spiralAngle * spiralRadius
  let spiralY := sinF spiralAngle * spiralRadius
  { n with x := offX + col * cellSize + spiralX * cellSize * (3/10),
           y := offY + row * cellSize + spiralY * cellSize * (3/10) }

/-- One pass of the crossing-reduction body for one link (lines 102-121):
look both endpoints up by id in the result list, and if both are found
and closer than `0.8 · cellSize`, push them apart by `0.2` of the gap
(the source is written first; the target update reads the list state
after that write, matching the in-place object mutation). -/
def crossingStep (sq : ℚ → ℚ) (cellSize : ℚ) (rs : List SimNode)
    (l : SLink) : Option (List SimNode) := do
  let sid ← l.source
  let tid ← l.target
  match rs.findIdx? (fun n => n.id == sid), rs.findIdx? (fun n => n.id == tid) with
  | some si, some ti =>
    match rs[si]?, rs[ti]? with
    | some sN, some tN =>
      let dx := tN.x - sN.x
      let dy := tN.y - sN.y
      let distance := sq (dx * dx + dy * dy)
      if distance < cellSize * (8/10) then
        let rs1 := rs.set si { sN with x := sN.x - dx * (2/10), y := sN.y - dy * (2/10) }
        match rs1[ti]? with
        | some tN1 =>
          pure (rs1.set ti { tN1 with x := tN1.x + dx * (2/10), y := tN1.y + dy * (2/10) })
        | none => pure rs1
      else
        pure rs
    | _, _ => pure rs
  | _, _ => pure rs

/-- The crossing-reduction loop over all links. -/
def crossingPass (sq : ℚ → ℚ) (cellSize : ℚ) :
    List SimNode → List SLink → Option (List SimNode)
  | rs, [] => some rs
  | rs, l :: ls =>
    match crossingStep sq cellSize rs l with
    | none => none
    | some rs1 => crossingPass sq cellSize rs1 ls

/-- `for (let iter = 0; iter < iters; iter++) links.forEach(...)`. -/
def crossingIters (sq : ℚ → ℚ) (cellSize : ℚ) (ls : List SLink) :
    ℕ → List SimNode → Option (List SimNode)
  | 0, rs => some rs
  | n + 1, rs =>
    match crossingPass sq cellSize rs ls with
    | none => none
    | some rs1 => crossingIters sq cellSize ls n rs1

/-- `applyMagicWanderLayout` (lines 50-130): grid sizing, connectivity
ranking, grid-plus-spiral placement, three crossing-reduction passes and
the final clamp to `[50, dimension - 50]`. -/
def applyMagicWanderLayout (sq cosF sinF : ℚ → ℚ) (nodes : List SimNode)
    (links : List SLink) (dims : Dims) : Option (List SimNode) :=
  if nodes.length = 0 then some []
  else do
    let gridSize := jsCeilSqrt nodes.length
    let g : ℚ := (gridSize : ℕ)
    let cellSize := min 150 (min (dims.width / g) (dims.height / g))
    let offX := (dims.width - g * cellSize) / 2
    let offY := (dims.height - g * cellSize) / 2
    let conn ← withConnectivity links nodes
    let sorted := sortConnDesc conn
    let placed := sorted.enum.map (fun p =>
      placeNode sq cosF sinF gridSize cellSize offX offY p.1 p.2.1)
    let adjusted ← crossingIters sq cellSize links 3 placed
    pure (adjusted.map (fun n =>
      { n with x := max 50 (min (dims.width - 50) n.x),
               y := max 50 (min (dims.height - 50) n.y) }))

/-! ## Magic-wander trigger and settle timer (`handleMagicWander`,
lines 453-511) -/

/-- The externally observable outcome of one `handleMagicWander` call:
the new node table, the `isMagicWanderActive` flag as left by the
synchronous part of the handler, the `magicWanderSuccess` flag, and
whether the 800 ms settle timer was scheduled. -/
structure MagicWanderResult where
  nodes : List SimNode
  isActive : Bool
  success : Bool
  timerScheduled : Bool
deriving DecidableEq

/-- `handleMagicWander` (lines 453-511).  With at most one visible node
the handler resets its activity flag and returns without touching any
node and without scheduling the settle timer.  Otherwise every node that
appears in the reorganized layout (exactly the visible ones) is moved to
its target with zero velocity and pinned there, and the settle timer is
scheduled. -/
def handleMagicWander (sq cosF sinF : ℚ → ℚ) (af : List NodeType)
    (dims : Dims) (ns : List SimNode) (ls : List SLink) :
    Option MagicWanderResult := do
  let nodesToOrganize := if af.isEmpty then ns else ns.filter (fun n => af.contains n.ntype)
  if nodesToOrganize.length ≤ 1 then
    pure { nodes := ns, isActive := false, success := false, timerScheduled := false }
  else do
    let vl ← visibleLinks af ns ls
    let reorganized ← applyMagicWanderLayout sq cosF sinF nodesToOrganize vl dims
    pure { nodes := ns.map (fun node =>
             match reorganized.find? (fun n => n.id == node.id) with
             | some r => { node with x := r.x, y := r.y, vx := 0, vy := 0,
                                     fx := .val r.x, fy := .val r.y }
             | none => node),
           isActive := true, success := false, timerScheduled := true }

/-- The settle-timer callback (lines 494-501), run 800 ms after a
successful trigger: it clears `fx` and `fy` of **every** node of the
table. -/
def settleTimerFire (ns : List SimNode) : List SimNode :=
  ns.map (fun n => { n with fx := .jsnull, fy := .jsnull })

/-- Modelled from the spec: the two-pass reference tick of §5
("compute accumulated displacement per node in a first pass, then apply
in a second pass"), in which every node's update is computed from the
same pre-tick node list `ns`.  Declared for comparison with
`simulateTick`; it is not part of the source. -/
def twoPassNodes (sq : ℚ → ℚ) (dims : Dims) (links : List SLink)
    (ns : List SimNode) : List ℕ → Option (List SimNode)
  | [] => some []
  | i :: is =>
    match ns[i]? with
    | none => twoPassNodes sq dims links ns is
    | some node =>
      match (if isFixed node then some node else updatedNode sq dims links ns i node) with
      | none => none
      | some n1 =>
        match twoPassNodes sq dims links ns is with
        | none => none
        | some rest => some (n1 :: rest)

/-- Modelled from the spec: the whole two-pass reference tick. -/
def simulateTickTwoPass (sq : ℚ → ℚ) (dims : Dims) (links : List SLink)
    (ns : List SimNode) : Option (List SimNode) :=
  twoPassNodes sq dims links ns (List.range ns.length)

/-! ## Shared concrete fixtures -/

/-- The viewport used by the concrete scenarios. -/
def dims800 : Dims := { width := 800, height := 600 }

/-- A square-root stand-in for scenarios in which the value is never
used (all nodes skipped, or no pairs and no links). -/
def sqZero : ℚ → ℚ := fun _ => 0

/-- The exact square roots occurring in the two-node scenarios: the
initial horizontal gap is `200`, and after the first node has moved by
`0.8415` the remaining gap is `200.8415`. -/
def sqAB : ℚ → ℚ := fun q =>
  if q = 40000 then 200
  else if q = (401683/2000 : ℚ) ^ 2 then 401683/2000
  else 0

/-- A node pinned at `(300, 300)` (both pin producers always set `x`/`y`
and `fx`/`fy` together, so the position equals the pin). -/
def pinnedP : SimNode :=
  { id := "p", ntype := .entry, size := none, x := 300, y := 300,
    vx := 0, vy := 0, fx := .val 300, fy := .val 300 }

/-- A freshly initialized node: `fx`, `fy` still `undefined`. -/
def freshU : SimNode :=
  { id := "u", ntype := .tag, size := none, x := 500, y := 300,
    vx := 0, vy := 0, fx := .undef, fy := .undef }

/-- The same node after some unpin event set `fx`, `fy` to `null`. -/
def nullU : SimNode :=
  { id := "u", ntype := .tag, size := none, x := 500, y := 300,
    vx := 0, vy := 0, fx := .jsnull, fy := .jsnull }

/-- The two-node snapshot of the spring-convergence scenario. -/
def warmGraph : List GNode :=
  [{ id := "a", ntype := .entry, size := none },
   { id := "b", ntype := .tag, size := none }]

/-- Concrete random positions: `a` at `(100, 300)`, `b` at `(700, 300)`,
both inside the seeding band `[50, dimension - 50]`. -/
def warmPx : ℕ → ℚ := fun i => if i = 0 then 100 else 700

/-- The vertical seed positions. -/
def warmPy : ℕ → ℚ := fun _ => 300

/-- The initialized node table of the warm-start scenario. -/
def warmNs : List SimNode := initialNodes warmGraph warmPx warmPy

/-- The single link `a → b` with `strength = 1`, resolved against
`warmNs`. -/
def warmLs : List SLink :=
  initialLinks warmNs [{ source := "a", target := "b", strength := some 1 }]

/-- A node dragged outside the viewport and pinned there: the drag
handler writes the pointer's world coordinates into `x`, `y`, `fx`, `fy`
without any clamp. -/
def pinnedOut : SimNode :=
  { id := "p", ntype := .entry, size := none, x := 5, y := 5,
    vx := 0, vy := 0, fx := .val 5, fy := .val 5 }

/-- Statement-side helper: the two endpoint node records of a link, as
resolved against the current node list. -/
def endpointNodes (ns : List SimNode) (l : SLink) :
    Option (SimNode × SimNode) := do
  let sid ← l.source
  let s ← findNode ns sid
  let tid ← l.target
  let t ← findNode ns tid
  pure (s, t)

/-- The id of the visible tag node of the link-visibility scenario. -/
def tagId : String := "t"

/-- The id of the hidden entry node of the link-visibility scenario. -/
def entId : String := "e"

/-! ## Concrete magic-wander scenario (shared by the C9 and C10
witnesses) -/

/-- A visible tag node with nonzero velocity and no pin. -/
def tagA : SimNode :=
  { id := "ta", ntype := .tag, size := none, x := 111, y := 222,
    vx := 3, vy := 4, fx := .undef, fy := .undef }

/-- A second visible tag node carrying a partial pin. -/
def tagB : SimNode :=
  { id := "tb", ntype := .tag, size := none, x := 333, y := 444,
    vx := 5, vy := 6, fx := .jsnull, fy := .val 7 }

/-- An entry node hidden by the `{tag}` filter, holding a drag pin. -/
def entC : SimNode :=
  { id := "ec", ntype := .entry, size := none, x := 1, y := 2,
    vx := 3, vy := 4, fx := .val 9, fy := .undef }

/-- The node table of the scenario. -/
def mwNs : List SimNode := [tagA, tagB, entC]

/-- `tagA` as placed by the trigger: grid cell `(250, 150)`, zero
velocity, pinned at the target. -/
def tagA1 : SimNode :=
  { tagA with x := 250, y := 150, vx := 0, vy := 0,
              fx := .val 250, fy := .val 150 }

/-- `tagB` as placed by the trigger: grid cell `(400, 150)`. -/
def tagB1 : SimNode :=
  { tagB with x := 400, y := 150, vx := 0, vy := 0,
              fx := .val 400, fy := .val 150 }

/-- The result of the trigger: both visible tags moved to their grid
cells and pinned there with zero velocity, the hidden entry untouched,
the settle timer scheduled. -/
def mwRes : MagicWanderResult :=
  { nodes := [tagA1, tagB1, entC],
    isActive := true, success := false, timerScheduled := true }

/-! ## Basic lemmas about the tick -/

theorem isFixed_false_iff (n : SimNode) :
    isFixed n = false ↔ n.fx = .jsnull ∨ n.fy = .jsnull := by
  cases hx : n.fx <;> cases hy : n.fy <;>
    simp [isFixed, JsNum.isNotNull, hx, hy]

theorem tickStep_length {sq dims links ns i ns'}
    (h : tickStep sq dims links ns i = some ns') : ns'.length = ns.length := by
  unfold tickStep at h
  split at h
  · exact (Option.some.injEq _ _ ▸ h) ▸ rfl
  · split at h
    · cases h; rfl
    · split at h
      · exact absurd h (by simp)
      · cases h; simp

theorem tickStep_getElem?_ne {sq dims links ns i ns'} (j : ℕ) (hij : j ≠ i)
    (h : tickStep sq dims links ns i = some ns') : ns'[j]? = ns[j]? := by
  unfold tickStep at h
  split at h
  · cases h; rfl
  · split at h
    · cases h; rfl
    · split at h
      · exact absurd h (by simp)
      · cases h; exact List.getElem?_set_ne (fun hh => hij hh.symm)

theorem runSteps_length {sq dims links} {is : List ℕ} {ns a : List SimNode}
    (h : runSteps sq dims links ns is = some a) : a.length = ns.length := by
  induction is generalizing ns with
  | nil => cases h; rfl
  | cons j is ih =>
    unfold runSteps at h
    split at h
    · exact absurd h (by simp)
    · next ns1 hstep => exact (ih h).trans (tickStep_length hstep)

theorem runSteps_getElem?_not_mem {sq dims links} {is : List ℕ}
    {ns a : List SimNode} {i : ℕ} (hnm : i ∉ is)
    (h : runSteps sq dims links ns is = some a) : a[i]? = ns[i]? := by
  induction is generalizing ns with
  | nil => cases h; rfl
  | cons j is ih =>
    unfold runSteps at h
    split at h
    · exact absurd h (by simp)
    · next ns1 hstep =>
      have hne : i ≠ j := fun hh => hnm (hh ▸ List.mem_cons_self _ _)
      have := ih (fun hh => hnm (List.mem_cons_of_mem _ hh)) h
      exact this.trans (tickStep_getElem?_ne i hne hstep)

/-- A node passing the `fx !== null && fy !== null` test is left exactly
as it was by any sequence of tick steps: its own step skips it and other
steps only write their own index. -/
theorem runSteps_fixed_preserved {sq dims links} {is : List ℕ}
    {ns a : List SimNode} {i : ℕ} {node : SimNode}
    (hni : ns[i]? = some node) (hfix : isFixed node = true)
    (h : runSteps sq dims links ns is = some a) : a[i]? = some node := by
  induction is generalizing ns with
  | nil => cases h; exact hni
  | cons j is ih =>
    unfold runSteps at h
    split at h
    · exact absurd h (by simp)
    · next ns1 hstep =>
      rcases Decidable.eq_or_ne j i with rfl | hne
      · have hskip : ns1 = ns := by
          unfold tickStep at hstep
          simp only [hni, hfix, if_true] at hstep
          exact (Option.some.inj hstep).symm
        exact ih (hskip ▸ hni) h
      · have : ns1[i]? = ns[i]? := tickStep_getElem?_ne i (fun hh => hne hh.symm) hstep
        exact ih (this ▸ hni) h

/-- A node failing the skip test is updated exactly once, from some
intermediate list that still holds the node unchanged at its index. -/
theorem runSteps_processed {sq dims links} {is : List ℕ}
    {ns a : List SimNode} {i : ℕ} {node : SimNode}
    (hnd : is.Nodup) (hmem : i ∈ is)
    (hni : ns[i]? = some node) (hfix : isFixed node = false)
    (h : runSteps sq dims links ns is = some a) :
    ∃ mid n1, mid[i]? = some node ∧
      updatedNode sq dims links mid i node = some n1 ∧ a[i]? = some n1 := by
  induction is generalizing ns with
  | nil => exact absurd hmem (List.not_mem_nil i)
  | cons j is ih =>
    unfold runSteps at h
    split at h
    · exact absurd h (by simp)
    · next ns1 hstep =>
      rcases Decidable.eq_or_ne j i with rfl | hne
      · have hnotmem : j ∉ is := (List.nodup_cons.mp hnd).1
        refine ⟨ns, ?_⟩
        unfold tickStep at hstep
        simp only [hni, hfix, Bool.false_eq_true, if_false] at hstep
        split at hstep
        · exact absurd hstep (by simp)
        · next n1 hupd =>
          have hset : ns1 = ns.set j n1 := by
            exact (Option.some.injEq _ _ ▸ hstep.symm)
          refine ⟨n1, hni, hupd, ?_⟩
          have : a[j]? = ns1[j]? := runSteps_getElem?_not_mem hnotmem h
          rw [this, hset, List.getElem?_set_self', hni]
          rfl
      · have hmem' : i ∈ is := by
          rcases List.mem_cons.mp hmem with hh | hh
          · exact absurd hh.symm hne
          · exact hh
        have hpres : ns1[i]? = ns[i]? :=
          tickStep_getElem?_ne i (fun hh => hne hh.symm) hstep
        exact ih (List.nodup_cons.mp hnd).2 hmem' (hpres ▸ hni) h

/-- If every index in `is` holds a node passing the skip test, the whole
pass leaves the table untouched. -/
theorem runSteps_skips {sq dims links} {is : List ℕ} {ns : List SimNode}
    (hall : ∀ j ∈ is, ∀ nj, ns[j]? = some nj → isFixed nj = true) :
    runSteps sq dims links ns is = some ns := by
  induction is with
  | nil => rfl
  | cons j is ih =>
    have hstep : tickStep sq dims links ns j = some ns := by
      unfold tickStep
      cases hj : ns[j]? with
      | none => rfl
      | some nj => simp only [hall j (List.mem_cons_self _ _) nj hj, if_true]
    unfold runSteps
    rw [hstep]
    exact ih (fun j hj nj hnj => hall j (List.mem_cons_of_mem _ hj) nj hnj)

/-- A table whose nodes all pass the skip test is left untouched by any
number of ticks. -/
theorem iterTick_skips {sq dims links} {ns : List SimNode}
    (hall : ∀ n ∈ ns, isFixed n = true) (N : ℕ) :
    iterTick sq dims links N ns = some ns := by
  induction N with
  | zero => rfl
  | succ N ih =>
    have htick : simulateTick sq dims links ns = some ns :=
      runSteps_skips (fun j _ nj hnj => hall nj (List.getElem?_mem hnj))
    unfold iterTick
    rw [htick]
    exact ih

/-- The successful result of the per-node body: the same node with the
integrated, damped velocity and the position clamped to
`[50 + size, dimension - (50 + size)]`. -/
theorem updatedNode_shape {sq : ℚ → ℚ} {dims : Dims} {links : List SLink}
    {ns : List SimNode} {i : ℕ} {node n1 : SimNode}
    (h : updatedNode sq dims links ns i node = some n1) :
    ∃ vx3 vy3, n1 = { node with
      x := max (50 + sizeOrDefault node)
             (min (dims.width - (50 + sizeOrDefault node)) (node.x + vx3)),
      y := max (50 + sizeOrDefault node)
             (min (dims.height - (50 + sizeOrDefault node)) (node.y + vy3)),
      vx := vx3, vy := vy3 } := by
  unfold updatedNode at h
  cases hacc : accumLinks sq ns node links (0, 0) with
  | none => rw [hacc] at h; exact absurd h (by simp)
  | some lf =>
    rw [hacc] at h
    simp only [Option.bind_eq_bind, Option.some_bind, Option.pure_def,
      Option.some.injEq] at h
    exact ⟨_, _, h.symm⟩

/-! ## C1 - pinning invariant -/

/-- C1: evaluation at the failing input.  A pinned node is indeed held
exactly (first and second conjunct: three ticks change nothing about it,
and it accumulates no velocity), and it is felt as a repulsion source by
a neighbour that fails the skip test (fourth conjunct: the `jsnull`
neighbour is pushed from `x = 500` to `x = 500.8415`).  But the claim's
"unpinned neighbor nodes continue to move" is false on the code: a
freshly initialized neighbour has `fx = fy = undefined`, the strict test
`fx !== null && fy !== null` treats it like a pinned node, and it does
not move at all (first conjunct, third conjunct). -/
theorem c1_pinning_eval :
    iterTick sqZero dims800 [] 3 [pinnedP, freshU] = some [pinnedP, freshU] ∧
    freshU.fx = JsNum.undef ∧ freshU.fy = JsNum.undef ∧
    simulateTick sqAB dims800 [] [pinnedP, nullU] =
      some [pinnedP, { nullU with x := 1001683/2000, vx := 1683/2000 }] := by
  refine ⟨?_, rfl, rfl, ?_⟩
  · refine iterTick_skips ?_ 3
    intro n hn
    simp only [List.mem_cons, List.not_mem_nil, or_false] at hn
    rcases hn with rfl | rfl <;> rfl
  · norm_num [simulateTick, runSteps, tickStep, updatedNode, accumRepel,
      accumLinks, repelForce, springForce, linkForce, isFixed, JsNum.isNotNull,
      sizeOrDefault, List.range_succ, pinnedP, nullU, dims800, sqAB]

/-! ## C2 - warm start -/

/-- C2: evaluation at the failing input.  The pre-warm loop *is* the
identical tick body run 100 times with no rendering (it is embedded as
`iterTick` of the same `simulateTick`), but on a freshly initialized
table every node still has `fx = fy = undefined`, the strict
`fx !== null` test skips all of them, and the 100 iterations change
nothing: the node distance stays at its random seed value `600` instead
of converging to the target separation `150 + 20 + 20 = 190`. -/
theorem c2_warm_start_noop :
    preWarmSimulation sqZero dims800 warmNs warmLs 100 = some warmNs ∧
    warmNs.map (fun n => (n.x, n.y)) = [(100, 300), (700, 300)] ∧
    (∀ n ∈ warmNs, n.fx = JsNum.undef ∧ isFixed n = true) := by
  have hfix : ∀ n ∈ warmNs, n.fx = JsNum.undef ∧ isFixed n = true := by
    intro n hn
    simp only [warmNs, initialNodes, warmGraph, List.enum, List.map,
      List.mem_cons, List.not_mem_nil, or_false] at hn
    rcases hn with rfl | rfl <;> exact ⟨rfl, rfl⟩
  refine ⟨iterTick_skips (fun n hn => (hfix n hn).2) 100, ?_, hfix⟩
  simp [warmNs, initialNodes, warmGraph, warmPx, warmPy, List.enum, List.enumFrom]

/-! ## C8 - zoom -/

/-- C8: `zoomBy` sets the scale to `clamp(scale + delta, 0.3, 3)` and
leaves the translation untouched, and a `+Δ` / `−Δ` round trip whose two
resulting values (`k + Δ` and `k`) lie inside the clamp range restores
the transform exactly. -/
theorem c8_zoom_clamp_roundtrip (t : Transform) (delta : ℚ)
    (h1 : 3/10 ≤ t.k + delta) (h2 : t.k + delta ≤ 3)
    (h3 : 3/10 ≤ t.k) (h4 : t.k ≤ 3) :
    handleZoom delta t = { t with k := max (3/10) (min 3 (t.k + delta)) } ∧
    (handleZoom delta t).x = t.x ∧ (handleZoom delta t).y = t.y ∧
    handleZoom (-delta) (handleZoom delta t) = t := by
  refine ⟨rfl, rfl, rfl, ?_⟩
  have hfst : handleZoom delta t = { t with k := t.k + delta } := by
    simp [handleZoom, min_eq_right h2, max_eq_right h1]
  rw [hfst]
  simp [handleZoom, min_eq_right h4, max_eq_right h3]

/-- C8 witness: a concrete round trip from `k = 1` with `Δ = 1/2`. -/
theorem c8_zoom_witness :
    handleZoom (-(1/2)) (handleZoom (1/2) { x := 7, y := 9, k := 1 }) =
      { x := 7, y := 9, k := 1 } :=
  (c8_zoom_clamp_roundtrip { x := 7, y := 9, k := 1 } (1/2)
    (by norm_num) (by norm_num) (by norm_num) (by norm_num)).2.2.2

/-! ## C7 - selection -/

/-- C7: selection is exclusive and externally notified exactly once per
click.  Selecting `A` and then `B` leaves exactly `B` selected (the
selection is a single `Option`, so "never both" is structural), each
click raises exactly one notification carrying the clicked node record,
a gesture starting on empty canvas does not touch the selection, and the
explicit close action clears it. -/
theorem c7_selection_exclusive (st : UIState) (t : Transform)
    (cx cy : ℚ) (A B : SimNode) :
    (handleNodeClick st A).2 = [A] ∧
    (handleNodeClick (handleNodeClick st A).1 B).2 = [B] ∧
    (handleNodeClick (handleNodeClick st A).1 B).1.selectedNode = some B ∧
    (handleMouseDownCanvas (handleNodeClick (handleNodeClick st A).1 B).1
        t cx cy).selectedNode = some B ∧
    (closeSelection
        (handleNodeClick (handleNodeClick st A).1 B).1).selectedNode = none :=
  ⟨rfl, rfl, rfl, rfl, rfl⟩

/-- C7 witness: the selection scenario at a concrete state and nodes. -/
theorem c7_selection_witness :
    (handleNodeClick
        (handleNodeClick
          { selectedNode := none, isPanning := false,
            panStart := (0, 0), transformStart := (0, 0) } pinnedP).1
        freshU).1.selectedNode = some freshU :=
  (c7_selection_exclusive
    { selectedNode := none, isPanning := false,
      panStart := (0, 0), transformStart := (0, 0) }
    { x := 0, y := 0, k := 1 } 3 4 pinnedP freshU).2.2.1

/-! ## C3 - boundary invariant -/

/-- C3 counterexample: the tick leaves a pinned node exactly where it
is, even outside the claimed band - after the tick, `pinnedOut` still
sits at `x = 5`, which is below the claimed lower bound
`padding = basePadding + size/2 = 50 + 10 = 60` (and also below the
code's own `50 + size = 70`). -/
theorem c3_boundary_counterexample :
    simulateTick sqZero dims800 [] [pinnedOut] = some [pinnedOut] ∧
    ¬ (50 + sizeOrDefault pinnedOut / 2 ≤ pinnedOut.x) := by
  constructor
  · refine runSteps_skips ?_
    intro j hj nj hnj
    match j, hnj with
    | 0, hnj => cases hnj; rfl
  · norm_num [pinnedOut, sizeOrDefault]

/-- C3 (amended): after one tick, every node that the tick actually
processes (i.e. whose `fx` or `fy` is strictly `null`) lies within
`[padding, dimension − padding]` in both axes with
`padding = basePadding + node.size` (the code clamps with the full size,
not `size/2`), provided the viewport is at least `2·padding` wide and
high; nodes skipped by the `fx !== null && fy !== null` test are exempt
and keep their position. -/
theorem c3_boundary_amended {sq : ℚ → ℚ} {dims : Dims} {links : List SLink}
    {ns a : List SimNode} {i : ℕ} {node : SimNode}
    (h : simulateTick sq dims links ns = some a)
    (hni : ns[i]? = some node) (hproc : isFixed node = false)
    (hw : 2 * (50 + sizeOrDefault node) ≤ dims.width)
    (hh : 2 * (50 + sizeOrDefault node) ≤ dims.height) :
    ∃ n1, a[i]? = some n1 ∧
      50 + sizeOrDefault node ≤ n1.x ∧
      n1.x ≤ dims.width - (50 + sizeOrDefault node) ∧
      50 + sizeOrDefault node ≤ n1.y ∧
      n1.y ≤ dims.height - (50 + sizeOrDefault node) := by
  have hlt : i < ns.length := by
    rcases List.getElem?_eq_some.mp hni with ⟨hl, _⟩
    exact hl
  obtain ⟨mid, n1, _, hupd, hai⟩ :=
    runSteps_processed (List.nodup_range ns.length)
      (List.mem_range.mpr hlt) hni hproc h
  obtain ⟨vx3, vy3, rfl⟩ := updatedNode_shape hupd
  have hpw : 50 + sizeOrDefault node ≤ dims.width - (50 + sizeOrDefault node) := by
    linarith
  have hph : 50 + sizeOrDefault node ≤ dims.height - (50 + sizeOrDefault node) := by
    linarith
  refine ⟨_, hai, le_max_left _ _, ?_, le_max_left _ _, ?_⟩
  · exact max_le hpw (min_le_left _ _)
  · exact max_le hph (min_le_left _ _)

/-- C3 witness: the amended bound at a concrete processed node. -/
theorem c3_boundary_witness :
    ∃ n1, [{ nullU with x := (999983 : ℚ)/2000, vx := (-17 : ℚ)/2000 }][0]? =
        some n1 ∧
      50 + sizeOrDefault nullU ≤ n1.x ∧
      n1.x ≤ dims800.width - (50 + sizeOrDefault nullU) ∧
      50 + sizeOrDefault nullU ≤ n1.y ∧
      n1.y ≤ dims800.height - (50 + sizeOrDefault nullU) := by
  have heval : simulateTick sqZero dims800 [] [nullU] =
      some [{ nullU with x := (999983 : ℚ)/2000, vx := (-17 : ℚ)/2000 }] := by
    norm_num [simulateTick, runSteps, tickStep, updatedNode, accumRepel,
      accumLinks, repelForce, springForce, linkForce, isFixed, JsNum.isNotNull,
      sizeOrDefault, List.range_succ, nullU, dims800, sqZero]
  exact @c3_boundary_amended sqZero dims800 [] [nullU]
    [{ nullU with x := (999983 : ℚ)/2000, vx := (-17 : ℚ)/2000 }] 0 nullU
    heval rfl rfl (by norm_num [sizeOrDefault, nullU, dims800])
    (by norm_num [sizeOrDefault, nullU, dims800])

/-! ## C5 - degenerate inputs -/

/-- C5 (amended): the degenerate-size behaviour that actually holds.
An empty table is untouched by a tick; a reorganization trigger with at
most one visible node is an immediate no-op that resets the activity
flag, reports no success, schedules no settle timer and touches no node;
and a tick over a single node with no links never throws.  (The claim's
"simulation ticks do nothing" for one node is false - see the
counterexample - because the centering attraction still moves a single
unpinned node.) -/
theorem c5_degenerate_amended (sq cosF sinF : ℚ → ℚ) (af : List NodeType)
    (dims : Dims) (ns : List SimNode) (ls : List SLink) (node : SimNode)
    (hle : (visibleNodes af ns).length ≤ 1) :
    simulateTick sq dims ls [] = some [] ∧
    handleMagicWander sq cosF sinF af dims ns ls =
      some { nodes := ns, isActive := false, success := false,
             timerScheduled := false } ∧
    (simulateTick sq dims [] [node]).isSome = true := by
  refine ⟨rfl, ?_, ?_⟩
  · unfold handleMagicWander
    rw [show (if af.isEmpty then ns else ns.filter fun n => af.contains n.ntype) =
          visibleNodes af ns from rfl]
    simp [hle]
  · show (runSteps sq dims [] [node] (List.range [node].length)).isSome = true
    have hr : List.range [node].length = [0] := rfl
    rw [hr]
    unfold runSteps tickStep
    simp only [List.getElem?_cons_zero]
    by_cases hf : isFixed node = true
    · simp [hf, runSteps]
    · rw [if_neg hf]
      cases hupd : updatedNode sq dims [] [node] 0 node with
      | none => exact absurd hupd (by simp [updatedNode, accumLinks])
      | some n1 => simp [runSteps]

/-- C5 witness: the amended statement at one visible node. -/
theorem c5_degenerate_witness :
    handleMagicWander sqZero sqZero sqZero [] dims800 [nullU] [] =
      some { nodes := [nullU], isActive := false, success := false,
             timerScheduled := false } :=
  (c5_degenerate_amended sqZero sqZero sqZero [] dims800 [nullU] [] nullU
    (by simp [visibleNodes])).2.1

/-- C5 counterexample: a 1-node graph's tick is *not* a no-op - the
centering spring moves a single unpinned node (from `x = 500` towards
the centre `x = 400`). -/
theorem c5_one_node_tick_moves :
    simulateTick sqZero dims800 [] [nullU] ≠ some [nullU] := by
  norm_num [simulateTick, runSteps, tickStep, updatedNode, accumRepel,
    accumLinks, repelForce, springForce, linkForce, isFixed, JsNum.isNotNull,
    sizeOrDefault, List.range_succ, nullU, dims800, sqZero, SimNode.mk.injEq]

/-! ## C4 - one tick versus the two-pass reference -/

theorem runSteps_append {sq dims links} {ns : List SimNode}
    {is1 is2 : List ℕ} :
    runSteps sq dims links ns (is1 ++ is2) =
      match runSteps sq dims links ns is1 with
      | none => none
      | some ns1 => runSteps sq dims links ns1 is2 := by
  induction is1 generalizing ns with
  | nil => rfl
  | cons j is1 ih =>
    simp only [List.cons_append, runSteps]
    cases tickStep sq dims links ns j with
    | none => rfl
    | some ns1 => exact ih

theorem twoPassNodes_append {sq dims links} {ns : List SimNode}
    {is1 is2 : List ℕ} :
    twoPassNodes sq dims links ns (is1 ++ is2) =
      match twoPassNodes sq dims links ns is1,
            twoPassNodes sq dims links ns is2 with
      | some l1, some l2 => some (l1 ++ l2)
      | _, _ => none := by
  induction is1 with
  | nil =>
    simp only [List.nil_append, twoPassNodes]
    cases twoPassNodes sq dims links ns is2 <;> rfl
  | cons i is1 ih =>
    simp only [List.cons_append, twoPassNodes]
    cases hni : ns[i]? with
    | none => simpa [List.append_eq] using ih
    | some node =>
      cases hupd : (if isFixed node then some node
          else updatedNode sq dims links ns i node) with
      | none => simp [List.append_eq, hupd]
      | some n1 =>
        simp only [List.append_eq, hupd, ih]
        cases twoPassNodes sq dims links ns is1 <;>
          cases twoPassNodes sq dims links ns is2 <;> simp

/-- The two-pass reference maps a segment of skipped indices to the
corresponding untouched segment of the table. -/
theorem twoPassNodes_skips {sq dims links} {ns : List SimNode} {a m : ℕ}
    (hall : ∀ x < m, ∀ nj, ns[a + x]? = some nj → isFixed nj = true) :
    twoPassNodes sq dims links ns ((List.range m).map (fun x => a + x)) =
      some ((ns.drop a).take m) := by
  induction m with
  | zero => rfl
  | succ m ih =>
    rw [List.range_succ, List.map_append, twoPassNodes_append]
    rw [ih (fun x hx => hall x (Nat.lt_succ_of_lt hx))]
    simp only [List.map_cons, List.map_nil]
    cases hm : ns[a + m]? with
    | none =>
      have hdrop : (ns.drop a)[m]? = none := by
        rw [List.getElem?_drop]; exact hm
      simp [twoPassNodes, hm, List.take_succ, hdrop]
    | some nj =>
      have hfix := hall m (Nat.lt_succ_self m) nj hm
      have hdrop : (ns.drop a)[m]? = some nj := by
        rw [List.getElem?_drop]; exact hm
      simp [twoPassNodes, hm, hfix, List.take_succ, hdrop]

/-- C4 (amended): the real tick is a sequential in-place pass, so it
coincides with the spec's two-pass reference whenever at most one node
is subject to the forces (all nodes except possibly the one at index `k`
pass the skip test) - and, by the counterexample below, *only* in such
degenerate situations is the snapshot reading guaranteed. -/
theorem c4_twopass_amended {sq : ℚ → ℚ} {dims : Dims} {links : List SLink}
    {ns : List SimNode} (k : ℕ)
    (hall : ∀ j nj, ns[j]? = some nj → j ≠ k → isFixed nj = true) :
    simulateTick sq dims links ns = simulateTickTwoPass sq dims links ns := by
  have hmap0 : ∀ m : ℕ, (List.range m).map (fun x => 0 + x) = List.range m := by
    intro m; simp
  by_cases hallk : ∀ (j : ℕ) (nj : SimNode), ns[j]? = some nj → isFixed nj = true
  · rw [show simulateTick sq dims links ns = some ns from
      runSteps_skips (fun j _ nj hnj => hallk j nj hnj)]
    unfold simulateTickTwoPass
    rw [← hmap0 ns.length,
      twoPassNodes_skips (fun x _ nj hnj => hallk (0 + x) nj hnj)]
    simp
  · push_neg at hallk
    obtain ⟨k', nk, hk', hnfix⟩ := hallk
    have hkk : k' = k := by
      by_contra hne
      exact hnfix (hall k' nk hk' hne)
    subst hkk
    have hfixk : isFixed nk = false := Bool.eq_false_iff.mpr hnfix
    have hlt : k' < ns.length := by
      rcases List.getElem?_eq_some.mp hk' with ⟨hl, _⟩
      exact hl
    have hsplit : List.range ns.length =
        (List.range k' ++ [k']) ++
          (List.range (ns.length - (k' + 1))).map (fun x => k' + 1 + x) := by
      rw [← List.range_succ, ← List.range_add]
      congr 1
      omega
    have hpre : runSteps sq dims links ns (List.range k') = some ns := by
      refine runSteps_skips ?_
      intro j hj nj hnj
      exact hall j nj hnj (Nat.ne_of_lt (List.mem_range.mp hj))
    have hpre2 : twoPassNodes sq dims links ns (List.range k') =
        some (ns.take k') := by
      have h2p : twoPassNodes sq dims links ns
          ((List.range k').map (fun x => 0 + x)) =
          some ((ns.drop 0).take k') :=
        twoPassNodes_skips (fun x hx nj hnj => hall (0 + x) nj hnj (by omega))
      rw [hmap0] at h2p
      simpa using h2p
    have htail : ∀ ms : List SimNode, (∀ j, j ≠ k' → ms[j]? = ns[j]?) →
        runSteps sq dims links ms
          ((List.range (ns.length - (k' + 1))).map (fun x => k' + 1 + x)) =
          some ms := by
      intro ms hms
      refine runSteps_skips ?_
      intro j hj nj hnj
      rcases List.mem_map.mp hj with ⟨x, _, rfl⟩
      have hne : k' + 1 + x ≠ k' := by omega
      rw [hms _ hne] at hnj
      exact hall _ nj hnj hne
    have htail2 : twoPassNodes sq dims links ns
        ((List.range (ns.length - (k' + 1))).map (fun x => k' + 1 + x)) =
        some ((ns.drop (k' + 1)).take (ns.length - (k' + 1))) := by
      refine twoPassNodes_skips ?_
      intro x _ nj hnj
      exact hall _ nj hnj (by omega)
    have hdroptake : (ns.drop (k' + 1)).take (ns.length - (k' + 1)) =
        ns.drop (k' + 1) := by
      rw [← List.length_drop]
      exact List.take_length _
    unfold simulateTick simulateTickTwoPass
    rw [hsplit, runSteps_append, twoPassNodes_append]
    rw [runSteps_append, twoPassNodes_append]
    simp only [hpre, hpre2, htail2]
    have hstep : tickStep sq dims links ns k' =
        match updatedNode sq dims links ns k' nk with
        | none => none
        | some v => some (ns.set k' v) := by
      unfold tickStep
      simp only [hk', hfixk, Bool.false_eq_true, if_false]
    have h1 : runSteps sq dims links ns [k'] =
        match updatedNode sq dims links ns k' nk with
        | none => none
        | some v => some (ns.set k' v) := by
      unfold runSteps
      rw [hstep]
      cases updatedNode sq dims links ns k' nk <;> rfl
    have h2 : twoPassNodes sq dims links ns [k'] =
        match updatedNode sq dims links ns k' nk with
        | none => none
        | some v => some [v] := by
      unfold twoPassNodes
      simp only [hk', hfixk, Bool.false_eq_true, if_false]
      cases updatedNode sq dims links ns k' nk <;> rfl
    simp only [h1, h2]
    cases hupd : updatedNode sq dims links ns k' nk with
    | none => rfl
    | some v =>
      have hset : ns.set k' v = ns.take k' ++ v :: ns.drop (k' + 1) :=
        List.set_eq_take_cons_drop v hlt
      have hms : ∀ j, j ≠ k' → (ns.set k' v)[j]? = ns[j]? := by
        intro j hj
        exact List.getElem?_set_ne (fun hh => hj hh.symm)
      simp only [htail (ns.set k' v) hms, hdroptake]
      rw [hset]
      simp

/-- C4 counterexample: with two unpinned nodes the sequential tick is
*not* the two-pass reference.  Node `a` moves first (to
`x = 299.1585`); the in-place tick then computes `b`'s repulsion from
`a`'s already-advanced position, while the two-pass reference reads
`a`'s pre-tick position, and the two results differ. -/
theorem c4_twopass_counterexample :
    simulateTick sqAB dims800 []
        [{ nullU with id := "a", ntype := .entry, x := 300 }, nullU] ≠
      simulateTickTwoPass sqAB dims800 []
        [{ nullU with id := "a", ntype := .entry, x := 300 }, nullU] := by
  norm_num [simulateTick, simulateTickTwoPass, runSteps, twoPassNodes, tickStep,
    updatedNode, accumRepel, accumLinks, repelForce, springForce, linkForce,
    isFixed, JsNum.isNotNull, sizeOrDefault, List.range_succ, nullU, dims800, sqAB]

/-- C4 witness: the amended equivalence at a concrete state in which
only one node (index 1) fails the skip test. -/
theorem c4_twopass_witness :
    simulateTick sqAB dims800 [] [pinnedP, nullU] =
      simulateTickTwoPass sqAB dims800 [] [pinnedP, nullU] := by
  refine c4_twopass_amended 1 ?_
  intro j nj hj hne
  match j, hj with
  | 0, hj => cases hj; rfl
  | 1, hj => exact absurd rfl hne
  | m + 2, hj => simp at hj

/-! ## C6 - filter visibility -/

theorem mem_visibleNodes (af : List NodeType) (ns : List SimNode)
    (n : SimNode) :
    n ∈ visibleNodes af ns ↔
      n ∈ ns ∧ (af.isEmpty = true ∨ af.contains n.ntype = true) := by
  unfold visibleNodes
  by_cases hemp : af.isEmpty = true
  · simp [hemp]
  · simp [hemp, List.mem_filter]

theorem endpointNodes_mem {ns : List SimNode} {l : SLink} {s t : SimNode}
    (h : endpointNodes ns l = some (s, t)) : s ∈ ns ∧ t ∈ ns := by
  unfold endpointNodes at h
  cases hs : l.source with
  | none => rw [hs] at h; exact absurd h (by simp)
  | some sid =>
    rw [hs] at h
    simp only [Option.bind_eq_bind, Option.some_bind] at h
    cases hfs : findNode ns sid with
    | none => rw [hfs] at h; exact absurd h (by simp)
    | some s1 =>
      rw [hfs] at h
      simp only [Option.some_bind] at h
      cases ht : l.target with
      | none => rw [ht] at h; exact absurd h (by simp)
      | some tid =>
        rw [ht] at h
        simp only [Option.some_bind] at h
        cases hft : findNode ns tid with
        | none => rw [hft] at h; exact absurd h (by simp)
        | some t1 =>
          rw [hft] at h
          simp only [Option.some_bind, Option.pure_def, Option.some.injEq,
            Prod.mk.injEq] at h
          obtain ⟨rfl, rfl⟩ := h
          exact ⟨List.mem_of_find?_eq_some hfs,
                 List.mem_of_find?_eq_some hft⟩

/-- The per-link test of `visibleLinks` computes exactly the conjunction
of the endpoint filter memberships when the endpoints resolve. -/
theorem linkVisible_of_endpoints {af : List NodeType} {ns : List SimNode}
    {l : SLink} {s t : SimNode} (h : endpointNodes ns l = some (s, t)) :
    linkVisible af ns l =
      some (af.contains s.ntype && af.contains t.ntype) := by
  unfold endpointNodes at h
  unfold linkVisible
  cases hs : l.source with
  | none => rw [hs] at h; exact absurd h (by simp)
  | some sid =>
    rw [hs] at h
    simp only [Option.bind_eq_bind, Option.some_bind] at h ⊢
    cases hfs : findNode ns sid with
    | none => rw [hfs] at h; exact absurd h (by simp)
    | some s1 =>
      rw [hfs] at h
      simp only [Option.some_bind] at h ⊢
      cases ht : l.target with
      | none =>
        rw [ht] at h
        exact absurd h (by simp)
      | some tid =>
        rw [ht] at h
        simp only [Option.some_bind] at h
        cases hft : findNode ns tid with
        | none => rw [hft] at h; exact absurd h (by simp)
        | some t1 =>
          rw [hft] at h
          simp only [Option.some_bind, Option.pure_def, Option.some.injEq,
            Prod.mk.injEq] at h
          obtain ⟨rfl, rfl⟩ := h
          by_cases hc : s1.ntype ∈ af
          · simp [hc, hft]
          · simp [hc]

theorem filterLinks_mem {af : List NodeType} {ns : List SimNode}
    {ls : List SLink}
    (hres : ∀ l ∈ ls, ∃ s t, endpointNodes ns l = some (s, t)) :
    ∃ vl, filterLinks af ns ls = some vl ∧
      ∀ l s t, endpointNodes ns l = some (s, t) →
        (l ∈ vl ↔ l ∈ ls ∧ af.contains s.ntype = true ∧
          af.contains t.ntype = true) := by
  induction ls with
  | nil => exact ⟨[], rfl, by simp⟩
  | cons l0 ls ih =>
    obtain ⟨s0, t0, hend0⟩ := hres l0 (List.mem_cons_self _ _)
    obtain ⟨vl', hvl', hmem'⟩ := ih (fun l hl => hres l (List.mem_cons_of_mem _ hl))
    have hlv : linkVisible af ns l0 =
        some (af.contains s0.ntype && af.contains t0.ntype) :=
      linkVisible_of_endpoints hend0
    refine ⟨if af.contains s0.ntype && af.contains t0.ntype then l0 :: vl'
            else vl', ?_, ?_⟩
    · unfold filterLinks
      rw [hlv, hvl']
    · intro l s t hend
      by_cases heq : l = l0
      · subst heq
        have hp := Option.some.inj (hend0.symm.trans hend)
        rw [Prod.mk.injEq] at hp
        obtain ⟨rfl, rfl⟩ := hp
        by_cases hb : (af.contains s0.ntype && af.contains t0.ntype) = true
        · have hb' := hb
          simp only [Bool.and_eq_true] at hb'
          simp at hb'
          simp [hb, hb'.1, hb'.2]
        · rw [if_neg hb, hmem' l s0 t0 hend]
          simp only [Bool.and_eq_true] at hb
          simp only [List.mem_cons, true_or, true_and]
          constructor
          · rintro ⟨_, h1, h2⟩; exact absurd ⟨h1, h2⟩ hb
          · rintro ⟨h1, h2⟩; exact absurd ⟨h1, h2⟩ hb
      · have hiff := hmem' l s t hend
        by_cases hb : (af.contains s0.ntype && af.contains t0.ntype) = true
        · rw [if_pos hb]
          simp [List.mem_cons, heq, hiff]
        · rw [if_neg hb]
          simp [List.mem_cons, heq, hiff]

/-- C6: node and link visibility.  (1) A node is visible iff the filter
set is empty or contains its type.  (2) Whenever all link endpoints
resolve, `visibleLinks` succeeds and a link is visible iff both of its
endpoint nodes are visible.  (3) In particular, with filter set `{tag}`,
a link between a visible `tag` node and a hidden `entry` node is itself
hidden. -/
theorem c6_visibility :
    (∀ (af : List NodeType) (ns : List SimNode) (n : SimNode),
      n ∈ visibleNodes af ns ↔
        n ∈ ns ∧ (af.isEmpty = true ∨ af.contains n.ntype = true)) ∧
    (∀ (af : List NodeType) (ns : List SimNode) (ls : List SLink),
      (∀ l ∈ ls, ∃ s t, endpointNodes ns l = some (s, t)) →
      ∃ vl, visibleLinks af ns ls = some vl ∧
        ∀ l s t, l ∈ ls → endpointNodes ns l = some (s, t) →
          (l ∈ vl ↔ s ∈ visibleNodes af ns ∧ t ∈ visibleNodes af ns)) ∧
    (visibleLinks [.tag]
        [{ id := "t", ntype := .tag, size := none, x := 1, y := 2,
           vx := 0, vy := 0, fx := .undef, fy := .undef },
         { id := "e", ntype := .entry, size := none, x := 3, y := 4,
           vx := 0, vy := 0, fx := .undef, fy := .undef }]
        [{ source := some tagId, target := some entId, strength := none }] =
      some []) := by
  refine ⟨mem_visibleNodes, ?_, ?_⟩
  · intro af ns ls hres
    by_cases hemp : af.isEmpty = true
    · refine ⟨ls, by simp [visibleLinks, hemp], ?_⟩
      intro l s t hl hend
      obtain ⟨hsmem, htmem⟩ := endpointNodes_mem hend
      simp [hl, mem_visibleNodes, hsmem, htmem, hemp]
    · obtain ⟨vl, hvl, hmem⟩ := @filterLinks_mem af ns ls hres
      refine ⟨vl, by simp [visibleLinks, hemp, hvl], ?_⟩
      intro l s t hl hend
      obtain ⟨hsmem, htmem⟩ := endpointNodes_mem hend
      rw [hmem l s t hend]
      simp [mem_visibleNodes, hsmem, htmem, hemp, hl]
  · rfl

/-- C6 witness: the link rule applied at the concrete `{tag}` scenario:
the tag-entry link is invisible because its `entry` endpoint is not. -/
theorem c6_visibility_witness :
    ∃ vl, visibleLinks [NodeType.tag]
        [{ id := "t", ntype := .tag, size := none, x := 1, y := 2,
           vx := 0, vy := 0, fx := .undef, fy := .undef },
         { id := "e", ntype := .entry, size := none, x := 3, y := 4,
           vx := 0, vy := 0, fx := .undef, fy := .undef }]
        [{ source := some tagId, target := some entId, strength := none }] =
      some vl ∧
      ({ source := some tagId, target := some entId,
         strength := none } : SLink) ∉ vl := by
  obtain ⟨vl, hvl, hmem⟩ := c6_visibility.2.1 [NodeType.tag]
    [{ id := "t", ntype := .tag, size := none, x := 1, y := 2,
       vx := 0, vy := 0, fx := .undef, fy := .undef },
     { id := "e", ntype := .entry, size := none, x := 3, y := 4,
       vx := 0, vy := 0, fx := .undef, fy := .undef }]
    [{ source := some tagId, target := some entId, strength := none }]
    (by intro l hl
        simp only [List.mem_cons, List.not_mem_nil, or_false] at hl
        subst hl
        exact ⟨_, _, rfl⟩)
  refine ⟨vl, hvl, ?_⟩
  rw [hmem _ _ _ (List.mem_cons_self _ _) rfl]
  rintro ⟨-, hent⟩
  rw [mem_visibleNodes] at hent
  simp at hent

/-! ## C9 - the settle timer clears every pin -/

/-- C9: (1) a reorganize trigger with at least two visible nodes
schedules the settle timer, (2) a trigger with fewer does not, and
(3) when the timer fires it sets `fx = fy = null` on **every** node of
the table - whatever its pin value (a drag pin in flight, a pin of a
node hidden by the filters) and whether or not it was reorganized - and
changes nothing else of the node. -/
theorem c9_settle_clears_all_pins :
    (∀ (sq cosF sinF : ℚ → ℚ) (af : List NodeType) (dims : Dims)
        (ns : List SimNode) (ls : List SLink) (res : MagicWanderResult),
      handleMagicWander sq cosF sinF af dims ns ls = some res →
      2 ≤ (visibleNodes af ns).length → res.timerScheduled = true) ∧
    (∀ (sq cosF sinF : ℚ → ℚ) (af : List NodeType) (dims : Dims)
        (ns : List SimNode) (ls : List SLink) (res : MagicWanderResult),
      handleMagicWander sq cosF sinF af dims ns ls = some res →
      (visibleNodes af ns).length ≤ 1 → res.timerScheduled = false) ∧
    (∀ (ns : List SimNode) (i : ℕ) (n : SimNode), ns[i]? = some n →
      (settleTimerFire ns)[i]? =
        some { n with fx := JsNum.jsnull, fy := JsNum.jsnull }) := by
  refine ⟨?_, ?_, ?_⟩
  · intro sq cosF sinF af dims ns ls res h hge
    unfold handleMagicWander at h
    rw [show (if af.isEmpty then ns else ns.filter fun n => af.contains n.ntype) =
          visibleNodes af ns from rfl] at h
    rw [if_neg (by omega)] at h
    cases hvl : visibleLinks af ns ls with
    | none => rw [hvl] at h; exact absurd h (by simp)
    | some vl =>
      rw [hvl] at h
      simp only [Option.bind_eq_bind, Option.some_bind] at h
      cases hre : applyMagicWanderLayout sq cosF sinF (visibleNodes af ns) vl dims with
      | none => rw [hre] at h; exact absurd h (by simp)
      | some reorg =>
        rw [hre] at h
        simp only [Option.some_bind, Option.pure_def, Option.some.injEq] at h
        rw [← h]
  · intro sq cosF sinF af dims ns ls res h hle
    unfold handleMagicWander at h
    rw [show (if af.isEmpty then ns else ns.filter fun n => af.contains n.ntype) =
          visibleNodes af ns from rfl] at h
    rw [if_pos hle] at h
    simp only [Option.pure_def, Option.some.injEq] at h
    rw [← h]
  · intro ns i n hni
    unfold settleTimerFire
    rw [List.getElem?_map, hni]
    rfl

/-- Evaluation of the reorganize trigger on the concrete scenario. -/
theorem mw_eval :
    handleMagicWander sqZero sqZero sqZero [.tag] dims800 mwNs [] =
      some mwRes := by
  norm_num +decide [handleMagicWander, visibleLinks, filterLinks,
    applyMagicWanderLayout, jsCeilSqrt, withConnectivity, connectivity,
    linkTouches, sortConnDesc, insertConnDesc, placeNode, crossingIters,
    crossingPass, crossingStep, visibleNodes, List.range_succ, List.enum,
    List.enumFrom, List.find?, List.filter, min_def, max_def, mwNs, mwRes,
    tagA1, tagB1, tagA, tagB, entC, dims800, sqZero, SimNode.mk.injEq,
    MagicWanderResult.mk.injEq]

/-- C9 witness: at the concrete trigger the settle timer is scheduled,
and firing it clears the drag pin of the hidden node `entC` as well. -/
theorem c9_settle_witness :
    mwRes.timerScheduled = true ∧
    (settleTimerFire mwNs)[2]? =
      some { entC with fx := JsNum.jsnull, fy := JsNum.jsnull } :=
  ⟨c9_settle_clears_all_pins.1 sqZero sqZero sqZero [.tag] dims800 mwNs []
      mwRes mw_eval (by norm_num [visibleNodes, mwNs, tagA, tagB, entC]),
   c9_settle_clears_all_pins.2.2 mwNs 2 entC rfl⟩

/-! ## C10 - the reorganize trigger's frame effect -/

theorem withConnectivity_map_fst {ls : List SLink} {nodes : List SimNode}
    {conn : List (SimNode × ℕ)}
    (h : withConnectivity ls nodes = some conn) :
    conn.map Prod.fst = nodes := by
  induction nodes generalizing conn with
  | nil =>
    simp only [withConnectivity, Option.some.injEq] at h
    subst h
    rfl
  | cons n nodes ih =>
    unfold withConnectivity at h
    cases hc : connectivity ls n.id with
    | none => rw [hc] at h; exact absurd h (by simp)
    | some c =>
      rw [hc] at h
      simp only [Option.bind_eq_bind, Option.some_bind] at h
      cases hrest : withConnectivity ls nodes with
      | none => rw [hrest] at h; exact absurd h (by simp)
      | some rest =>
        rw [hrest] at h
        simp only [Option.some_bind, Option.pure_def, Option.some.injEq] at h
        subst h
        simp [ih hrest]

theorem insertConnDesc_perm (x : SimNode × ℕ) (l : List (SimNode × ℕ)) :
    (insertConnDesc x l).Perm (x :: l) := by
  induction l with
  | nil => exact List.Perm.refl _
  | cons y ys ih =>
    unfold insertConnDesc
    by_cases hy : y.2 < x.2
    · rw [if_pos hy]
    · rw [if_neg hy]
      exact (List.Perm.cons y ih).trans (List.Perm.swap x y ys)

theorem sortConnDesc_perm (l : List (SimNode × ℕ)) :
    (sortConnDesc l).Perm l := by
  suffices h : ∀ (l acc : List (SimNode × ℕ)),
      (l.foldl (fun a x => insertConnDesc x a) acc).Perm (acc ++ l) by
    simpa [sortConnDesc] using h l []
  intro l
  induction l with
  | nil => intro acc; simp
  | cons x xs ih =>
    intro acc
    refine ((ih (insertConnDesc x acc)).trans ?_)
    refine ((insertConnDesc_perm x acc).append_right xs).trans ?_
    exact List.perm_middle.symm

theorem enum_place_map_id (sq cosF sinF : ℚ → ℚ) (g : ℕ) (c ox oy : ℚ)
    (l : List (SimNode × ℕ)) :
    ((l.enum.map (fun p => placeNode sq cosF sinF g c ox oy p.1 p.2.1)).map
        (fun n => n.id)) =
      l.map (fun p => p.1.id) := by
  apply List.ext_getElem?
  intro i
  simp only [List.getElem?_map, List.getElem?_enum]
  cases l[i]? <;> rfl

theorem map_id_set {rs : List SimNode} {i : ℕ} {v sN : SimNode}
    (hi : rs[i]? = some sN) (hid : v.id = sN.id) :
    (rs.set i v).map (fun n => n.id) = rs.map (fun n => n.id) := by
  apply List.ext_getElem?
  intro j
  rcases Decidable.eq_or_ne j i with rfl | hne
  · rw [List.getElem?_map, List.getElem?_map, List.getElem?_set_self', hi]
    simp [hid]
  · rw [List.getElem?_map, List.getElem?_map,
      List.getElem?_set_ne (fun hh => hne hh.symm)]

theorem crossingStep_ids {sq : ℚ → ℚ} {c : ℚ} {rs rs' : List SimNode}
    {l : SLink} (h : crossingStep sq c rs l = some rs') :
    rs'.map (fun n => n.id) = rs.map (fun n => n.id) := by
  unfold crossingStep at h
  cases hs : l.source with
  | none => rw [hs] at h; exact absurd h (by simp)
  | some sid =>
    rw [hs] at h
    simp only [Option.bind_eq_bind, Option.some_bind] at h
    cases ht : l.target with
    | none => rw [ht] at h; exact absurd h (by simp)
    | some tid =>
      rw [ht] at h
      simp only [Option.some_bind, Option.pure_def] at h
      split at h
      · next si ti hfs hft =>
        split at h
        · next sN tN hsi hti =>
          split at h
          · next hdist =>
            split at h
            · next tN1 hti1 =>
              cases h
              refine (map_id_set hti1 ?_).trans (map_id_set hsi rfl)
              rfl
            · next hti1 =>
              cases h
              exact map_id_set hsi rfl
          · next hdist =>
            cases h
            rfl
        · next hmiss =>
          cases h
          rfl
      · next hmiss =>
        cases h
        rfl

theorem crossingPass_ids {sq : ℚ → ℚ} {c : ℚ} {ls : List SLink}
    {rs rs' : List SimNode} (h : crossingPass sq c rs ls = some rs') :
    rs'.map (fun n => n.id) = rs.map (fun n => n.id) := by
  induction ls generalizing rs with
  | nil =>
    simp only [crossingPass, Option.some.injEq] at h
    subst h
    rfl
  | cons l ls ih =>
    unfold crossingPass at h
    cases hstep : crossingStep sq c rs l with
    | none => rw [hstep] at h; exact absurd h (by simp)
    | some rs1 =>
      rw [hstep] at h
      exact (ih h).trans (crossingStep_ids hstep)

theorem crossingIters_ids {sq : ℚ → ℚ} {c : ℚ} {ls : List SLink} {n : ℕ}
    {rs rs' : List SimNode} (h : crossingIters sq c ls n rs = some rs') :
    rs'.map (fun n => n.id) = rs.map (fun n => n.id) := by
  induction n generalizing rs with
  | zero =>
    simp only [crossingIters, Option.some.injEq] at h
    subst h
    rfl
  | succ n ih =>
    unfold crossingIters at h
    cases hpass : crossingPass sq c rs ls with
    | none => rw [hpass] at h; exact absurd h (by simp)
    | some rs1 =>
      rw [hpass] at h
      exact (ih h).trans (crossingPass_ids hpass)

/-- The reorganizer returns nodes carrying exactly the ids of its input
(as a permutation): placement, crossing reduction and clamping only
rewrite coordinates. -/
theorem layout_ids {sq cosF sinF : ℚ → ℚ} {nodes : List SimNode}
    {links : List SLink} {dims : Dims} {out : List SimNode}
    (h : applyMagicWanderLayout sq cosF sinF nodes links dims = some out) :
    (out.map (fun n => n.id)).Perm (nodes.map (fun n => n.id)) := by
  unfold applyMagicWanderLayout at h
  by_cases h0 : nodes.length = 0
  · rw [if_pos h0] at h
    rw [List.length_eq_zero.mp h0]
    simp only [Option.some.injEq] at h
    subst h
    rfl
  · rw [if_neg h0] at h
    cases hconn : withConnectivity links nodes with
    | none => rw [hconn] at h; exact absurd h (by simp)
    | some conn =>
      rw [hconn] at h
      simp only [Option.bind_eq_bind, Option.some_bind] at h
      cases hcr : crossingIters sq
          (min 150 (min (dims.width / (jsCeilSqrt nodes.length : ℕ))
            (dims.height / (jsCeilSqrt nodes.length : ℕ)))) links 3
          ((sortConnDesc conn).enum.map (fun p =>
            placeNode sq cosF sinF (jsCeilSqrt nodes.length)
              (min 150 (min (dims.width / (jsCeilSqrt nodes.length : ℕ))
                (dims.height / (jsCeilSqrt nodes.length : ℕ))))
              ((dims.width - (jsCeilSqrt nodes.length : ℕ) *
                (min 150 (min (dims.width / (jsCeilSqrt nodes.length : ℕ))
                  (dims.height / (jsCeilSqrt nodes.length : ℕ))))) / 2)
              ((dims.height - (jsCeilSqrt nodes.length : ℕ) *
                (min 150 (min (dims.width / (jsCeilSqrt nodes.length : ℕ))
                  (dims.height / (jsCeilSqrt nodes.length : ℕ))))) / 2)
              p.1 p.2.1)) with
      | none => rw [hcr] at h; exact absurd h (by simp)
      | some adjusted =>
        rw [hcr] at h
        simp only [Option.some_bind, Option.pure_def, Option.some.injEq] at h
        subst h
        have hclamp : ((adjusted.map (fun n =>
            { n with x := max 50 (min (dims.width - 50) n.x),
                     y := max 50 (min (dims.height - 50) n.y) })).map
              (fun n => n.id)) = adjusted.map (fun n => n.id) := by
          rw [List.map_map]
          rfl
        rw [hclamp, crossingIters_ids hcr, enum_place_map_id]
        have hperm := (sortConnDesc_perm conn).map (fun p => p.1.id)
        refine hperm.trans ?_
        have : conn.map (fun p => p.1.id) =
            (conn.map Prod.fst).map (fun n => n.id) := by
          rw [List.map_map]
          rfl
        rw [this, withConnectivity_map_fst hconn]

/-- C10: at the moment reorganization is triggered with at least two
visible nodes (on a snapshot with unique ids), every visible node is
moved to its computed layout target with velocity exactly `(0, 0)` and
its pinned position set to that same target, while every node hidden by
the active filters keeps position, velocity and pin state unchanged. -/
theorem c10_reorg_frame {sq cosF sinF : ℚ → ℚ} {af : List NodeType}
    {dims : Dims} {ns : List SimNode} {ls : List SLink}
    {res : MagicWanderResult}
    (hnd : (ns.map (fun n => n.id)).Nodup)
    (hcount : 2 ≤ (visibleNodes af ns).length)
    (h : handleMagicWander sq cosF sinF af dims ns ls = some res) :
    ∃ vl reorg, visibleLinks af ns ls = some vl ∧
      applyMagicWanderLayout sq cosF sinF (visibleNodes af ns) vl dims =
        some reorg ∧
      ∀ (i : ℕ) (n : SimNode), ns[i]? = some n →
        (if af.isEmpty = true ∨ af.contains n.ntype = true then
          ∃ r, reorg.find? (fun m => m.id == n.id) = some r ∧
            res.nodes[i]? = some { n with x := r.x, y := r.y, vx := 0, vy := 0, fx := .val r.x, fy := .val r.y }
        else res.nodes[i]? = some n) := by
  unfold handleMagicWander at h
  rw [show (if af.isEmpty then ns else ns.filter fun n => af.contains n.ntype) =
        visibleNodes af ns from rfl] at h
  rw [if_neg (by omega)] at h
  cases hvl : visibleLinks af ns ls with
  | none => rw [hvl] at h; exact absurd h (by simp)
  | some vl =>
    rw [hvl] at h
    simp only [Option.bind_eq_bind, Option.some_bind] at h
    cases hre : applyMagicWanderLayout sq cosF sinF (visibleNodes af ns) vl dims with
    | none => rw [hre] at h; exact absurd h (by simp)
    | some reorg =>
      rw [hre] at h
      simp only [Option.some_bind, Option.pure_def, Option.some.injEq] at h
      subst h
      refine ⟨vl, reorg, rfl, hre, ?_⟩
      intro i n hni
      have hmemn : n ∈ ns := List.getElem?_mem hni
      have hids : (reorg.map (fun m => m.id)).Perm
          ((visibleNodes af ns).map (fun m => m.id)) := layout_ids hre
      by_cases hvis : af.isEmpty = true ∨ af.contains n.ntype = true
      · rw [if_pos hvis]
        have hnvis : n ∈ visibleNodes af ns :=
          (mem_visibleNodes af ns n).mpr ⟨hmemn, hvis⟩
        have hidin : n.id ∈ reorg.map (fun m => m.id) := by
          rw [hids.mem_iff]
          exact List.mem_map.mpr ⟨n, hnvis, rfl⟩
        have hfind : (reorg.find? (fun m => m.id == n.id)).isSome = true := by
          rw [List.find?_isSome]
          obtain ⟨r, hrmem, hrid⟩ := List.mem_map.mp hidin
          exact ⟨r, hrmem, by simp [hrid]⟩
        obtain ⟨r0, hr0⟩ := Option.isSome_iff_exists.mp hfind
        refine ⟨r0, hr0, ?_⟩
        rw [List.getElem?_map, hni]
        simp only [Option.map_some']
        rw [hr0]
      · rw [if_neg hvis]
        have hfind : reorg.find? (fun m => m.id == n.id) = none := by
          rw [List.find?_eq_none]
          intro r hrmem
          simp only [beq_iff_eq, Bool.not_eq_true]
          intro hrid
          have hidin : n.id ∈ (visibleNodes af ns).map (fun m => m.id) := by
            rw [← hids.mem_iff]
            exact List.mem_map.mpr ⟨r, hrmem, hrid⟩
          obtain ⟨v, hvmem, hvid⟩ := List.mem_map.mp hidin
          have hvns : v ∈ ns := ((mem_visibleNodes af ns v).mp hvmem).1
          have hveq : v = n := List.inj_on_of_nodup_map hnd hvns hmemn hvid
          subst hveq
          exact hvis ((mem_visibleNodes af ns v).mp hvmem).2
        rw [List.getElem?_map, hni]
        simp only [Option.map_some']
        rw [hfind]

/-- C10 witness: the frame effect at the concrete trigger: both visible
tags are found in the layout and rewritten to their pinned targets, the
hidden pinned entry is untouched. -/
theorem c10_reorg_witness :
    ∃ vl reorg, visibleLinks [NodeType.tag] mwNs [] = some vl ∧
      applyMagicWanderLayout sqZero sqZero sqZero
        (visibleNodes [NodeType.tag] mwNs) vl dims800 = some reorg ∧
      ∀ (i : ℕ) (n : SimNode), mwNs[i]? = some n →
        (if ([NodeType.tag] : List NodeType).isEmpty = true ∨
            ([NodeType.tag] : List NodeType).contains n.ntype = true then
          ∃ r, reorg.find? (fun m => m.id == n.id) = some r ∧
            mwRes.nodes[i]? = some { n with x := r.x, y := r.y, vx := 0, vy := 0, fx := .val r.x, fy := .val r.y }
        else mwRes.nodes[i]? = some n) :=
  c10_reorg_frame
    (by norm_num +decide [mwNs, tagA, tagB, entC])
    (by norm_num +decide [visibleNodes, mwNs, tagA, tagB, entC])
    mw_eval

end GraphView
